import Mathlib

/-!
Verification of the journal subsystem of noosxe/dotman
(`internal/journal/journal.go`), as a shallow embedding.

Modelling conventions:
* Go `time.Time` values are modelled as `Nat` (wall-clock nanoseconds).
  Go serializes them as RFC3339Nano strings, an injective textual encoding
  of the wall-clock instant; the model keeps the numeric instant in the
  JSON tree (`Json.num`), preserving the same information content.
* Go's named string types (`StepStatus`, `StepType`, `OperationType`,
  `EntryState`) are plain strings in Go, so they are `String` here, with
  the named constants of the source mirrored as definitions.
* The storage abstraction (`internal/fs.FileSystem`, an `os` wrapper) is
  modelled by `SimFS`: a list of existing directories and an association
  list from paths to the JSON documents stored there.  A write fails
  exactly when the target directory does not exist (as `os.WriteFile`
  does); a remove fails exactly when the file does not exist (as
  `os.Remove` does).  A path is the pair of the partition directory
  (journal root + state subdirectory) and the file name, mirroring
  `filepath.Join(jm.journalDir, string(state), id+".json")`.
* Go errors are `Option String` (for functions that mutate and return
  `error`) or `Except String α` (for functions returning `(α, error)`),
  with the message texts of the source.
-/

/-! ## JSON documents (model of `encoding/json` values) -/

inductive Json where
  | null : Json
  | str : String → Json
  | num : Nat → Json
  | arr : List Json → Json
  | obj : List (String × Json) → Json

/-! ## Data model (`Step`, `JournalEntry`) -/

/-- Constants of the source: step statuses. -/
def StepStatusPending : String := "pending"

def StepStatusRunning : String := "running"

def StepStatusCompleted : String := "completed"

def StepStatusFailed : String := "failed"

/-- Constants of the source: entry states. -/
def EntryStateCurrent : String := "current"

def EntryStateCompleted : String := "completed"

def EntryStateFailed : String := "failed"

/-- `Step` of the source, with its JSON field names kept as Lean field
names (`type`, `status`, `error`, `description`, `source`, `target`,
`details`, `start_time`, `end_time`). -/
structure Step where
  type : String
  status : String
  error : String
  description : String
  source : String
  target : String
  details : String
  start_time : Nat
  end_time : Nat
deriving DecidableEq, Repr

/-- `JournalEntry` of the source. -/
structure JournalEntry where
  id : String
  timestamp : Nat
  operation : String
  source : String
  target : String
  state : String
  checksum : String
  steps : List Step
deriving DecidableEq, Repr

/-! ## Marshalling (model of the struct tags + `encoding/json`)

A field tagged `omitempty` is omitted when the Go value is the zero of a
basic kind; a struct-typed field (`time.Time`) is never considered empty
by `encoding/json`, so `end_time` is always emitted despite its tag. -/

/-- A string field with tag `omitempty`: omitted when empty. -/
def optStrField (key v : String) : List (String × Json) :=
  if v = "" then [] else [(key, Json.str v)]

def marshalStep (s : Step) : Json :=
  Json.obj
    ([("type", Json.str s.type), ("status", Json.str s.status)]
      ++ optStrField "error" s.error
      ++ optStrField "description" s.description
      ++ optStrField "source" s.source
      ++ optStrField "target" s.target
      ++ optStrField "details" s.details
      ++ [("start_time", Json.num s.start_time), ("end_time", Json.num s.end_time)])

def marshalEntry (e : JournalEntry) : Json :=
  Json.obj
    ([("id", Json.str e.id), ("timestamp", Json.num e.timestamp),
      ("operation", Json.str e.operation)]
      ++ optStrField "source" e.source
      ++ optStrField "target" e.target
      ++ [("state", Json.str e.state)]
      ++ optStrField "checksum" e.checksum
      ++ [("steps", Json.arr (e.steps.map marshalStep))])

/-! ## Unmarshalling -/

def findField (key : String) : List (String × Json) → Option Json
  | [] => none
  | (k, v) :: rest => if k = key then some v else findField key rest

/-- Decoding a string field: an absent key or JSON null leaves the zero
value `""`; a non-string value is a decode error. -/
def asStr : Option Json → Option String
  | none => some ""
  | some Json.null => some ""
  | some (Json.str s) => some s
  | some _ => none

/-- Decoding a time field: an absent key or JSON null leaves the zero
time; a non-time value is a decode error. -/
def asTime : Option Json → Option Nat
  | none => some 0
  | some Json.null => some 0
  | some (Json.num n) => some n
  | some _ => none

def unmarshalStep : Json → Option Step
  | Json.obj fields => do
    let ty ← asStr (findField "type" fields)
    let st ← asStr (findField "status" fields)
    let er ← asStr (findField "error" fields)
    let de ← asStr (findField "description" fields)
    let so ← asStr (findField "source" fields)
    let ta ← asStr (findField "target" fields)
    let dt ← asStr (findField "details" fields)
    let t1 ← asTime (findField "start_time" fields)
    let t2 ← asTime (findField "end_time" fields)
    pure { type := ty, status := st, error := er, description := de, source := so,
           target := ta, details := dt, start_time := t1, end_time := t2 }
  | _ => none

def unmarshalStepList : List Json → Option (List Step)
  | [] => some []
  | x :: rest => do
    let s ← unmarshalStep x
    let l ← unmarshalStepList rest
    pure (s :: l)

/-- Decoding the `steps` field: absent or null leaves the nil slice
(the empty list in this model). -/
def asSteps : Option Json → Option (List Step)
  | none => some []
  | some Json.null => some []
  | some (Json.arr xs) => unmarshalStepList xs
  | some _ => none

def unmarshalEntry : Json → Option JournalEntry
  | Json.obj fields => do
    let i ← asStr (findField "id" fields)
    let ts ← asTime (findField "timestamp" fields)
    let op ← asStr (findField "operation" fields)
    let so ← asStr (findField "source" fields)
    let ta ← asStr (findField "target" fields)
    let st ← asStr (findField "state" fields)
    let ck ← asStr (findField "checksum" fields)
    let sp ← asSteps (findField "steps" fields)
    pure { id := i, timestamp := ts, operation := op, source := so, target := ta,
           state := st, checksum := ck, steps := sp }
  | _ => none

/-! ## Round-trip lemmas -/

theorem unmarshalStep_marshalStep (s : Step) : unmarshalStep (marshalStep s) = some s := by
  cases s with
  | mk ty st er de so ta dt t1 t2 =>
    by_cases h1 : er = "" <;> by_cases h2 : de = "" <;> by_cases h3 : so = "" <;>
      by_cases h4 : ta = "" <;> by_cases h5 : dt = "" <;>
      simp [marshalStep, unmarshalStep, optStrField, findField, asStr, asTime,
        h1, h2, h3, h4, h5]

theorem unmarshalStepList_map_marshalStep (l : List Step) :
    unmarshalStepList (l.map marshalStep) = some l := by
  induction l with
  | nil => rfl
  | cons s rest ih =>
    simp [unmarshalStepList, unmarshalStep_marshalStep, ih]

theorem unmarshalEntry_marshalEntry (e : JournalEntry) :
    unmarshalEntry (marshalEntry e) = some e := by
  cases e with
  | mk i ts op so ta st ck sp =>
    by_cases h1 : so = "" <;> by_cases h2 : ta = "" <;> by_cases h3 : ck = "" <;>
      simp [marshalEntry, unmarshalEntry, optStrField, findField, asStr, asTime, asSteps,
        unmarshalStepList_map_marshalStep, h1, h2, h3]

/-! ## Filesystem model (`internal/fs.FileSystem` over `os`) -/

/-- A path `filepath.Join(journalDir, stateDir, fileName)`, kept as its
three components. -/
structure EntryPath where
  journalDir : String
  stateDir : String
  fileName : String
deriving DecidableEq, Repr

def getFile : List (EntryPath × Json) → EntryPath → Option Json
  | [], _ => none
  | (q, d) :: rest, p => if q = p then some d else getFile rest p

def setFile : List (EntryPath × Json) → EntryPath → Json → List (EntryPath × Json)
  | [], p, d => [(p, d)]
  | (q, old) :: rest, p, d => if q = p then (p, d) :: rest else (q, old) :: setFile rest p d

def delFile : List (EntryPath × Json) → EntryPath → List (EntryPath × Json)
  | [], _ => []
  | (q, d) :: rest, p => if q = p then delFile rest p else (q, d) :: delFile rest p

/-- The filesystem: existing partition directories (journal root, state
subdirectory) and the stored files. -/
structure SimFS where
  dirs : List (String × String)
  files : List (EntryPath × Json)

/-- `WriteFile`: fails when the containing directory does not exist. -/
def writeFile (fs : SimFS) (p : EntryPath) (d : Json) : SimFS × Option String :=
  if (p.journalDir, p.stateDir) ∈ fs.dirs then
    ({ fs with files := setFile fs.files p d }, none)
  else (fs, some "no such file or directory")

/-- `Remove`: fails when the file does not exist. -/
def removeFile (fs : SimFS) (p : EntryPath) : SimFS × Option String :=
  if (getFile fs.files p).isSome then
    ({ fs with files := delFile fs.files p }, none)
  else (fs, some "no such file or directory")

/-- `Stat` succeeding, as used by `GetEntry`. -/
def statOk (fs : SimFS) (p : EntryPath) : Bool :=
  (getFile fs.files p).isSome

/-! ## Journal store (`JournalManager`) -/

/-- The path `filepath.Join(jm.journalDir, string(state), id+".json")`. -/
def entryPath (journalDir state id : String) : EntryPath :=
  { journalDir := journalDir, stateDir := state, fileName := id ++ ".json" }

/-- `generateOperationID`: `fmt.Sprintf("%s-%d", operation, time.Now().UnixNano())`,
with the nanosecond clock reading passed in explicitly. -/
def generateOperationID (operation : String) (nowNano : Nat) : String :=
  operation ++ "-" ++ toString nowNano

/-- `saveEntry`: marshal the entry (which cannot fail on this type) and
write it at the path derived from the entry's current `state` and `id`. -/
def saveEntry (fs : SimFS) (journalDir : String) (e : JournalEntry) : SimFS × Option String :=
  writeFile fs (entryPath journalDir e.state e.id) (marshalEntry e)

/-- `readEntry`: read the file, then unmarshal it. -/
def readEntry (fs : SimFS) (p : EntryPath) : Except String JournalEntry :=
  match getFile fs.files p with
  | none => Except.error "error reading file: no such file or directory"
  | some d =>
    match unmarshalEntry d with
    | none => Except.error "error unmarshaling entry: invalid JSON"
    | some e => Except.ok e

/-- The entry literal built by `CreateEntry`: fresh id, `State: "current"`,
`Steps: make([]Step, 0)`. -/
def freshEntry (operation source target : String) (idNano tsNano : Nat) : JournalEntry :=
  { id := generateOperationID operation idNano
    timestamp := tsNano
    operation := operation
    source := source
    target := target
    state := "current"
    checksum := ""
    steps := [] }

/-- `CreateEntry`: build the entry, save it, return it.  The two
`time.Now()` readings of the source (one inside `generateOperationID`,
one for `Timestamp`) are the explicit arguments `idNano` and `tsNano`. -/
def CreateEntry (fs : SimFS) (journalDir operation source target : String)
    (idNano tsNano : Nat) : SimFS × Except String JournalEntry :=
  let entry : JournalEntry := freshEntry operation source target idNano tsNano
  match saveEntry fs journalDir entry with
  | (fs2, some err) => (fs2, Except.error err)
  | (fs2, none) => (fs2, Except.ok entry)

/-- `UpdateEntry`: just `saveEntry`. -/
def UpdateEntry (fs : SimFS) (journalDir : String) (e : JournalEntry) : SimFS × Option String :=
  saveEntry fs journalDir e

/-- `MoveEntry`: capture the old path from the state before mutation, set
`entry.State = newState`, write at the new path, then remove the old file. -/
def MoveEntry (fs : SimFS) (journalDir : String) (e : JournalEntry) (newState : String) :
    SimFS × JournalEntry × Option String :=
  let oldPath := entryPath journalDir e.state e.id
  let e2 := { e with state := newState }
  match saveEntry fs journalDir e2 with
  | (fs2, some err) => (fs2, e2, some ("error writing entry: " ++ err))
  | (fs2, none) =>
    match removeFile fs2 oldPath with
    | (fs3, some err) => (fs3, e2, some ("error removing old entry: " ++ err))
    | (fs3, none) => (fs3, e2, none)

/-- `GetEntry`'s loop over the state directories, in order. -/
def GetEntryIn (fs : SimFS) (journalDir id : String) : List String → Except String JournalEntry
  | [] => Except.error ("entry not found: " ++ id)
  | s :: rest =>
    if statOk fs (entryPath journalDir s id) then readEntry fs (entryPath journalDir s id)
    else GetEntryIn fs journalDir id rest

/-- `GetEntry`: search `current`, `completed`, `failed` in order; return
the first file whose `Stat` succeeds. -/
def GetEntry (fs : SimFS) (journalDir id : String) : Except String JournalEntry :=
  GetEntryIn fs journalDir id [EntryStateCurrent, EntryStateCompleted, EntryStateFailed]

/-- The directory listing: names of the files in one partition directory
(the model stores only files, so `entry.IsDir()` is always false). -/
def readDir (fs : SimFS) (journalDir s : String) : List String :=
  (fs.files.filter fun f => decide (f.1.journalDir = journalDir ∧ f.1.stateDir = s)).map
    fun f => f.1.fileName

/-- The filter `filepath.Ext(entry.Name()) == ".json"`: the name ends in
the extension `.json`. -/
def hasJsonExt (name : String) : Bool :=
  decide (name.data.reverse.take 5 = ['n', 'o', 's', 'j', '.'])

/-- The inner loop of `ListEntries`: read every listed `.json` file of a
partition; the first failing read aborts the whole call. -/
def readEntries (fs : SimFS) (journalDir s : String) :
    List String → Except String (List JournalEntry)
  | [] => Except.ok []
  | name :: rest =>
    if hasJsonExt name then
      match readEntry fs { journalDir := journalDir, stateDir := s, fileName := name } with
      | Except.error err => Except.error ("error reading entry " ++ name ++ ": " ++ err)
      | Except.ok e =>
        match readEntries fs journalDir s rest with
        | Except.error err => Except.error err
        | Except.ok l => Except.ok (e :: l)
    else readEntries fs journalDir s rest

/-- The outer loop of `ListEntries`: a partition whose directory cannot be
opened is skipped (`continue`); a failing read aborts. -/
def scanStates (fs : SimFS) (journalDir : String) :
    List String → Except String (List JournalEntry)
  | [] => Except.ok []
  | s :: rest =>
    if (journalDir, s) ∈ fs.dirs then
      match readEntries fs journalDir s (readDir fs journalDir s) with
      | Except.error err => Except.error err
      | Except.ok l =>
        match scanStates fs journalDir rest with
        | Except.error err => Except.error err
        | Except.ok l2 => Except.ok (l ++ l2)
    else scanStates fs journalDir rest

/-- The state list `ListEntries` scans for a given filter. -/
def statesFor (state : String) : List String :=
  if state = "" then [EntryStateCurrent, EntryStateCompleted, EntryStateFailed] else [state]

/-- `ListEntries`: aggregate all three partitions when the filter is
empty, else only the requested one. -/
def ListEntries (fs : SimFS) (journalDir state : String) : Except String (List JournalEntry) :=
  scanStates fs journalDir (statesFor state)

/-! ## Step and entry lifecycle helpers -/

/-- In-place mutation through the `*Step` pointer, modelled as an index
into the owning entry's step list. -/
def modifyNth (f : Step → Step) : Nat → List Step → List Step
  | _, [] => []
  | 0, s :: rest => f s :: rest
  | n + 1, s :: rest => s :: modifyNth f n rest

/-- `AddStep`: append a fresh step (status `pending`, `StartTime = time.Now()`)
and save the entry; the in-memory entry is mutated even when saving fails. -/
def AddStep (fs : SimFS) (journalDir : String) (e : JournalEntry)
    (stepType description source target : String) (now : Nat) :
    SimFS × JournalEntry × Option String :=
  let step : Step :=
    { type := stepType
      status := StepStatusPending
      error := ""
      description := description
      source := source
      target := target
      details := ""
      start_time := now
      end_time := 0 }
  let e2 := { e with steps := e.steps ++ [step] }
  match UpdateEntry fs journalDir e2 with
  | (fs2, some err) => (fs2, e2, some ("error saving step: " ++ err))
  | (fs2, none) => (fs2, e2, none)

/-- `StartStep`: set the step's status to `running` and save the entry. -/
def StartStep (fs : SimFS) (journalDir : String) (e : JournalEntry) (i : Nat) :
    SimFS × JournalEntry × Option String :=
  let e2 := { e with steps := modifyNth (fun s => { s with status := StepStatusRunning }) i e.steps }
  match UpdateEntry fs journalDir e2 with
  | (fs2, err) => (fs2, e2, err)

/-- `CompleteStep`: set status `completed`, the details, the end time;
save the entry. -/
def CompleteStep (fs : SimFS) (journalDir : String) (e : JournalEntry) (i : Nat)
    (details : String) (now : Nat) : SimFS × JournalEntry × Option String :=
  let f : Step → Step :=
    fun s => { s with status := StepStatusCompleted, details := details, end_time := now }
  let e2 := { e with steps := modifyNth f i e.steps }
  match UpdateEntry fs journalDir e2 with
  | (fs2, err) => (fs2, e2, err)

/-- `FailStep`: set status `failed`, the error text, the end time; save
the entry. -/
def FailStep (fs : SimFS) (journalDir : String) (e : JournalEntry) (i : Nat)
    (errText : String) (now : Nat) : SimFS × JournalEntry × Option String :=
  let f : Step → Step :=
    fun s => { s with status := StepStatusFailed, error := errText, end_time := now }
  let e2 := { e with steps := modifyNth f i e.steps }
  match UpdateEntry fs journalDir e2 with
  | (fs2, err) => (fs2, e2, err)

/-- The field updates `FailEntry` applies to its last step. -/
def failStepMut (errText : String) (now : Nat) (s : Step) : Step :=
  { s with status := StepStatusFailed, error := errText, end_time := now }

/-- Mutation of the last step performed by `FailEntry` through
`&entry.Steps[len(entry.Steps)-1]`. -/
def failLastStep (errText : String) (now : Nat) : List Step → List Step
  | [] => []
  | [s] => [failStepMut errText now s]
  | s :: rest => s :: failLastStep errText now rest

/-- `FailEntry`: with zero steps, fail with "no steps in entry" touching
nothing; otherwise mark the last step failed, save, and move the entry to
the `failed` partition. -/
def FailEntry (fs : SimFS) (journalDir : String) (e : JournalEntry)
    (errText : String) (now : Nat) : SimFS × JournalEntry × Option String :=
  if e.steps.length = 0 then (fs, e, some "no steps in entry")
  else
    let e2 := { e with steps := failLastStep errText now e.steps }
    match UpdateEntry fs journalDir e2 with
    | (fs2, some err) => (fs2, e2, some err)
    | (fs2, none) => MoveEntry fs2 journalDir e2 EntryStateFailed

/-- `CompleteEntry`: save the entry, then move it to the `completed`
partition. -/
def CompleteEntry (fs : SimFS) (journalDir : String) (e : JournalEntry) :
    SimFS × JournalEntry × Option String :=
  match UpdateEntry fs journalDir e with
  | (fs2, some err) => (fs2, e, some err)
  | (fs2, none) => MoveEntry fs2 journalDir e EntryStateCompleted

/-! ## Concrete fixtures used for witnesses and counterexamples -/

/-- A concrete step with the given status. -/
def stepW (st : String) : Step :=
  { type := "verify", status := st, error := "", description := "check", source := "a/b",
    target := "c/d", details := "", start_time := 1, end_time := 0 }

/-- A concrete entry with the given state and steps. -/
def entryW (state : String) (steps : List Step) : JournalEntry :=
  { id := "add-7", timestamp := 2, operation := "add", source := "a/b", target := "c/d",
    state := state, checksum := "", steps := steps }

/-- The three partition directories of journal root "j", as `Initialize`
creates them. -/
def dirsW : List (String × String) := [("j", "current"), ("j", "completed"), ("j", "failed")]

/-- A filesystem with the three partitions and the given files. -/
def fsW (files : List (EntryPath × Json)) : SimFS := { dirs := dirsW, files := files }

/-- An entry with no steps, in `current`, stored on disk. -/
def eNoSteps : JournalEntry := entryW EntryStateCurrent []

/-- An entry with two steps, in `current`. -/
def eTwoSteps : JournalEntry :=
  entryW EntryStateCurrent [stepW StepStatusCompleted, stepW StepStatusRunning]

/-- An entry already in the `failed` partition. -/
def eDoneFailed : JournalEntry := entryW EntryStateFailed [stepW StepStatusFailed]

/-- Filesystem holding `eDoneFailed` in the `failed` partition. -/
def fsDoneFailed : SimFS := fsW [(entryPath "j" EntryStateFailed "add-7", marshalEntry eDoneFailed)]

/-- An entry whose only step is already terminal (`completed`). -/
def eTermStep : JournalEntry := entryW EntryStateCurrent [stepW StepStatusCompleted]

/-- Filesystem holding `eTermStep` in the `current` partition. -/
def fsTermStep : SimFS := fsW [(entryPath "j" EntryStateCurrent "add-7", marshalEntry eTermStep)]

/-- Two copies of one id in two partitions: the duplicate window left by
an interrupted `MoveEntry`. -/
def eDupCur : JournalEntry :=
  { id := "x", timestamp := 1, operation := "add", source := "", target := "",
    state := EntryStateCurrent, checksum := "", steps := [] }

def eDupComp : JournalEntry := { eDupCur with state := EntryStateCompleted }

def fsDup : SimFS :=
  fsW [(entryPath "j" EntryStateCurrent "x", marshalEntry eDupCur),
       (entryPath "j" EntryStateCompleted "x", marshalEntry eDupComp)]

/-- A partition containing a file that is not a valid entry. -/
def fsBad : SimFS :=
  fsW [({ journalDir := "j", stateDir := "current", fileName := "garbage.json" }, Json.null)]

/-- `eTwoSteps` stored in the `current` partition. -/
def fsTwoSteps : SimFS := fsW [(entryPath "j" EntryStateCurrent "add-7", marshalEntry eTwoSteps)]

/-! ## Store lemmas -/

theorem getFile_setFile_same (l : List (EntryPath × Json)) (p : EntryPath) (d : Json) :
    getFile (setFile l p d) p = some d := by
  induction l with
  | nil => simp [setFile, getFile]
  | cons hd rest ih =>
    obtain ⟨q, old⟩ := hd
    by_cases hq : q = p <;> simp [setFile, getFile, hq, ih]

theorem getFile_setFile_ne (l : List (EntryPath × Json)) (p : EntryPath) (d : Json)
    (r : EntryPath) (h : r ≠ p) : getFile (setFile l p d) r = getFile l r := by
  induction l with
  | nil => simp [setFile, getFile, Ne.symm h]
  | cons hd rest ih =>
    obtain ⟨q, old⟩ := hd
    by_cases hq : q = p
    · subst hq
      simp [setFile, getFile, Ne.symm h]
    · simp only [setFile, if_neg hq, getFile]
      by_cases hr : q = r <;> simp [hr, ih]

theorem getFile_delFile_same (l : List (EntryPath × Json)) (p : EntryPath) :
    getFile (delFile l p) p = none := by
  induction l with
  | nil => simp [delFile, getFile]
  | cons hd rest ih =>
    obtain ⟨q, old⟩ := hd
    by_cases hq : q = p <;> simp [delFile, getFile, hq, ih]

theorem getFile_delFile_ne (l : List (EntryPath × Json)) (p : EntryPath)
    (r : EntryPath) (h : r ≠ p) : getFile (delFile l p) r = getFile l r := by
  induction l with
  | nil => simp [delFile, getFile]
  | cons hd rest ih =>
    obtain ⟨q, old⟩ := hd
    by_cases hq : q = p
    · subst hq
      simp [delFile, getFile, Ne.symm h, ih]
    · simp only [delFile, if_neg hq, getFile]
      by_cases hr : q = r <;> simp [hr, ih]

/-! ## Step-list lemmas -/

theorem modifyNth_get?_same (f : Step → Step) (i : Nat) (l : List Step) :
    (modifyNth f i l).get? i = (l.get? i).map f := by
  induction l generalizing i with
  | nil => simp [modifyNth]
  | cons s rest ih =>
    cases i with
    | zero => simp [modifyNth]
    | succ n => simpa [modifyNth] using ih n

theorem modifyNth_get?_ne (f : Step → Step) (i : Nat) (l : List Step)
    (j : Nat) (h : j ≠ i) : (modifyNth f i l).get? j = l.get? j := by
  induction l generalizing i j with
  | nil => simp [modifyNth]
  | cons s rest ih =>
    cases i with
    | zero =>
      cases j with
      | zero => exact absurd rfl h
      | succ m => simp [modifyNth]
    | succ n =>
      cases j with
      | zero => simp [modifyNth]
      | succ m =>
        simpa [modifyNth] using ih n m (fun hh => h (by omega))

theorem modifyNth_length (f : Step → Step) (i : Nat) (l : List Step) :
    (modifyNth f i l).length = l.length := by
  induction l generalizing i with
  | nil => simp [modifyNth]
  | cons s rest ih =>
    cases i with
    | zero => simp [modifyNth]
    | succ n => simpa [modifyNth] using ih n

theorem failLastStep_length (m : String) (t : Nat) (l : List Step) :
    (failLastStep m t l).length = l.length := by
  induction l with
  | nil => rfl
  | cons s rest ih =>
    cases rest with
    | nil => rfl
    | cons r rs => simpa [failLastStep] using ih

theorem failLastStep_get?_lt (m : String) (t : Nat) (l : List Step) (i : Nat)
    (h : i + 1 < l.length) : (failLastStep m t l).get? i = l.get? i := by
  induction l generalizing i with
  | nil => simp [failLastStep]
  | cons s rest ih =>
    cases rest with
    | nil => simp at h
    | cons r rs =>
      cases i with
      | zero => simp [failLastStep]
      | succ n =>
        have hn : n + 1 < (r :: rs).length := by simpa using h
        simpa [failLastStep] using ih n hn

theorem failLastStep_get?_last (m : String) (t : Nat) (l : List Step) (h : l ≠ []) :
    (failLastStep m t l).get? (l.length - 1) =
      (l.get? (l.length - 1)).map (failStepMut m t) := by
  induction l with
  | nil => exact absurd rfl h
  | cons s rest ih =>
    cases rest with
    | nil => simp [failLastStep]
    | cons r rs =>
      have hlen : (s :: r :: rs).length - 1 = ((r :: rs).length - 1) + 1 := by
        simp
      rw [hlen]
      simpa [failLastStep] using ih (by simp)

/-! ## Characterizations of the store operations -/

theorem saveEntry_mem (fs : SimFS) (jd : String) (e : JournalEntry)
    (h : (jd, e.state) ∈ fs.dirs) :
    saveEntry fs jd e =
      ({ fs with files := setFile fs.files (entryPath jd e.state e.id) (marshalEntry e) },
       none) := by
  simp [saveEntry, writeFile, entryPath, h]

theorem saveEntry_not_mem (fs : SimFS) (jd : String) (e : JournalEntry)
    (h : (jd, e.state) ∉ fs.dirs) :
    saveEntry fs jd e = (fs, some "no such file or directory") := by
  simp [saveEntry, writeFile, entryPath, h]

theorem removeFile_some (fs : SimFS) (p : EntryPath) (d : Json)
    (h : getFile fs.files p = some d) :
    removeFile fs p = ({ fs with files := delFile fs.files p }, none) := by
  simp [removeFile, h]

theorem removeFile_none (fs : SimFS) (p : EntryPath)
    (h : getFile fs.files p = none) :
    removeFile fs p = (fs, some "no such file or directory") := by
  simp [removeFile, h]

theorem readEntry_marshal (fs : SimFS) (p : EntryPath) (e : JournalEntry)
    (h : getFile fs.files p = some (marshalEntry e)) :
    readEntry fs p = Except.ok e := by
  simp [readEntry, h, unmarshalEntry_marshalEntry]

/-- `MoveEntry` always returns the entry with its state field set to the
new state, whatever happened on disk. -/
theorem MoveEntry_entry (fs : SimFS) (jd : String) (e : JournalEntry) (ns : String) :
    (MoveEntry fs jd e ns).2.1 = { e with state := ns } := by
  unfold MoveEntry
  rcases hsv : saveEntry fs jd { e with state := ns } with ⟨fs2, err⟩
  cases err with
  | none =>
    rcases hrm : removeFile fs2 (entryPath jd e.state e.id) with ⟨fs3, err2⟩
    cases err2 <;> simp [hsv, hrm]
  | some msg => simp [hsv]


theorem MoveEntry_write_fail (fs : SimFS) (jd : String) (e : JournalEntry) (ns : String)
    (h : (jd, ns) ∉ fs.dirs) :
    MoveEntry fs jd e ns = (fs, { e with state := ns }, some ("error writing entry: " ++ "no such file or directory")) := by
  have hsv := saveEntry_not_mem fs jd { e with state := ns } h
  simp only [MoveEntry, hsv]

theorem MoveEntry_remove_fail (fs : SimFS) (jd : String) (e : JournalEntry) (ns : String)
    (hw : (jd, ns) ∈ fs.dirs)
    (hne : entryPath jd e.state e.id ≠ entryPath jd ns e.id)
    (hold : getFile fs.files (entryPath jd e.state e.id) = none) :
    MoveEntry fs jd e ns = ({ fs with files := setFile fs.files (entryPath jd ns e.id) (marshalEntry { e with state := ns }) }, { e with state := ns }, some ("error removing old entry: " ++ "no such file or directory")) := by
  have hgf : getFile (setFile fs.files (entryPath jd ns e.id) (marshalEntry { e with state := ns })) (entryPath jd e.state e.id) = none := by
    rw [getFile_setFile_ne _ _ _ _ hne]
    exact hold
  have hsv := saveEntry_mem fs jd { e with state := ns } hw
  have hrm := removeFile_none { fs with files := setFile fs.files (entryPath jd ns e.id) (marshalEntry { e with state := ns }) } (entryPath jd e.state e.id) hgf
  simp only [MoveEntry, hsv, hrm]

theorem MoveEntry_ok (fs : SimFS) (jd : String) (e : JournalEntry) (ns : String) (d : Json)
    (hw : (jd, ns) ∈ fs.dirs)
    (hne : entryPath jd e.state e.id ≠ entryPath jd ns e.id)
    (hold : getFile fs.files (entryPath jd e.state e.id) = some d) :
    MoveEntry fs jd e ns = ({ fs with files := delFile (setFile fs.files (entryPath jd ns e.id) (marshalEntry { e with state := ns })) (entryPath jd e.state e.id) }, { e with state := ns }, none) := by
  have hgf : getFile (setFile fs.files (entryPath jd ns e.id) (marshalEntry { e with state := ns })) (entryPath jd e.state e.id) = some d := by
    rw [getFile_setFile_ne _ _ _ _ hne]
    exact hold
  have hsv := saveEntry_mem fs jd { e with state := ns } hw
  have hrm := removeFile_some { fs with files := setFile fs.files (entryPath jd ns e.id) (marshalEntry { e with state := ns }) } (entryPath jd e.state e.id) d hgf
  simp only [MoveEntry, hsv, hrm]

theorem CreateEntry_mem (fs : SimFS) (jd op src tgt : String) (idN tsN : Nat)
    (h : (jd, "current") ∈ fs.dirs) :
    CreateEntry fs jd op src tgt idN tsN = ({ fs with files := setFile fs.files (entryPath jd "current" (freshEntry op src tgt idN tsN).id) (marshalEntry (freshEntry op src tgt idN tsN)) }, Except.ok (freshEntry op src tgt idN tsN)) := by
  have hsv := saveEntry_mem fs jd (freshEntry op src tgt idN tsN) h
  simp only [CreateEntry, hsv]
  rfl

/-- The in-memory entry returned by `AddStep`, with the fresh `pending`
step appended, its `start_time` being the creation instant. -/
theorem AddStep_entry (fs : SimFS) (jd : String) (e : JournalEntry)
    (ty de so ta : String) (now : Nat) :
    (AddStep fs jd e ty de so ta now).2.1 = { e with steps := e.steps ++ [{ type := ty, status := StepStatusPending, error := "", description := de, source := so, target := ta, details := "", start_time := now, end_time := 0 }] } := by
  simp only [AddStep]
  split <;> rfl

theorem StartStep_entry (fs : SimFS) (jd : String) (e : JournalEntry) (i : Nat) :
    (StartStep fs jd e i).2.1 = { e with steps := modifyNth (fun s => { s with status := StepStatusRunning }) i e.steps } := by
  rfl

theorem CompleteStep_entry (fs : SimFS) (jd : String) (e : JournalEntry) (i : Nat)
    (dt : String) (now : Nat) :
    (CompleteStep fs jd e i dt now).2.1 = { e with steps := modifyNth (fun s => { s with status := StepStatusCompleted, details := dt, end_time := now }) i e.steps } := by
  rfl

theorem FailStep_entry (fs : SimFS) (jd : String) (e : JournalEntry) (i : Nat)
    (et : String) (now : Nat) :
    (FailStep fs jd e i et now).2.1 = { e with steps := modifyNth (fun s => { s with status := StepStatusFailed, error := et, end_time := now }) i e.steps } := by
  rfl

/-! ## `GetEntry` and `ListEntries` lemmas -/

theorem GetEntry_current_hit (fs : SimFS) (jd id : String)
    (h : statOk fs (entryPath jd EntryStateCurrent id) = true) :
    GetEntry fs jd id = readEntry fs (entryPath jd EntryStateCurrent id) := by
  simp [GetEntry, GetEntryIn, h]

theorem GetEntry_completed_hit (fs : SimFS) (jd id : String)
    (h1 : statOk fs (entryPath jd EntryStateCurrent id) = false)
    (h2 : statOk fs (entryPath jd EntryStateCompleted id) = true) :
    GetEntry fs jd id = readEntry fs (entryPath jd EntryStateCompleted id) := by
  simp [GetEntry, GetEntryIn, h1, h2]

theorem GetEntry_failed_hit (fs : SimFS) (jd id : String)
    (h1 : statOk fs (entryPath jd EntryStateCurrent id) = false)
    (h2 : statOk fs (entryPath jd EntryStateCompleted id) = false)
    (h3 : statOk fs (entryPath jd EntryStateFailed id) = true) :
    GetEntry fs jd id = readEntry fs (entryPath jd EntryStateFailed id) := by
  simp [GetEntry, GetEntryIn, h1, h2, h3]

theorem GetEntry_miss (fs : SimFS) (jd id : String)
    (h1 : statOk fs (entryPath jd EntryStateCurrent id) = false)
    (h2 : statOk fs (entryPath jd EntryStateCompleted id) = false)
    (h3 : statOk fs (entryPath jd EntryStateFailed id) = false) :
    GetEntry fs jd id = Except.error ("entry not found: " ++ id) := by
  simp [GetEntry, GetEntryIn, h1, h2, h3]

/-- Every `.json` name in a successfully listed partition parses. -/
theorem readEntries_ok_parses (fs : SimFS) (jd s : String) (names : List String)
    (l : List JournalEntry) (h : readEntries fs jd s names = Except.ok l) :
    ∀ name ∈ names, hasJsonExt name = true →
      ∃ e, readEntry fs { journalDir := jd, stateDir := s, fileName := name } = Except.ok e := by
  induction names generalizing l with
  | nil =>
    intro name hmem
    simp at hmem
  | cons n rest ih =>
    intro name hmem hext
    rw [readEntries] at h
    by_cases hn : hasJsonExt n = true
    · rw [if_pos hn] at h
      cases hre : readEntry fs { journalDir := jd, stateDir := s, fileName := n } with
      | error err =>
        rw [hre] at h
        simp at h
      | ok e0 =>
        rw [hre] at h
        cases hrr : readEntries fs jd s rest with
        | error err2 =>
          rw [hrr] at h
          simp at h
        | ok l2 =>
          rcases List.mem_cons.mp hmem with rfl | hmem2
          · exact ⟨e0, hre⟩
          · exact ih l2 hrr name hmem2 hext
    · rw [if_neg hn] at h
      rcases List.mem_cons.mp hmem with rfl | hmem2
      · exact absurd hext hn
      · exact ih l h name hmem2 hext

/-- Every entry produced by a successful partition scan is the parse of
one of the listed `.json` files. -/
theorem readEntries_ok_mem (fs : SimFS) (jd s : String) (names : List String)
    (l : List JournalEntry) (h : readEntries fs jd s names = Except.ok l) :
    ∀ x ∈ l, ∃ name, name ∈ names ∧ hasJsonExt name = true ∧
      readEntry fs { journalDir := jd, stateDir := s, fileName := name } = Except.ok x := by
  induction names generalizing l with
  | nil =>
    rw [readEntries] at h
    intro x hx
    rw [show l = [] from by injection h with hh; exact hh.symm] at hx
    simp at hx
  | cons n rest ih =>
    intro x hx
    rw [readEntries] at h
    by_cases hn : hasJsonExt n = true
    · rw [if_pos hn] at h
      cases hre : readEntry fs { journalDir := jd, stateDir := s, fileName := n } with
      | error err =>
        rw [hre] at h
        simp at h
      | ok e0 =>
        rw [hre] at h
        cases hrr : readEntries fs jd s rest with
        | error err2 =>
          rw [hrr] at h
          simp at h
        | ok l2 =>
          rw [hrr] at h
          simp only [Except.ok.injEq] at h
          rw [← h] at hx
          rcases List.mem_cons.mp hx with rfl | hx2
          · exact ⟨n, List.mem_cons_self n rest, hn, hre⟩
          · obtain ⟨nm, hnm, hnext, hnread⟩ := ih l2 hrr x hx2
            exact ⟨nm, List.mem_cons_of_mem n hnm, hnext, hnread⟩
    · rw [if_neg hn] at h
      obtain ⟨nm, hnm, hnext, hnread⟩ := ih l h x hx
      exact ⟨nm, List.mem_cons_of_mem n hnm, hnext, hnread⟩

theorem scanStates_singleton_mem (fs : SimFS) (jd s : String) (h : (jd, s) ∈ fs.dirs) :
    scanStates fs jd [s] = readEntries fs jd s (readDir fs jd s) := by
  simp only [scanStates, if_pos h]
  cases hrr : readEntries fs jd s (readDir fs jd s) with
  | error err => rfl
  | ok l => simp [scanStates]

theorem scanStates_singleton_not (fs : SimFS) (jd s : String) (h : (jd, s) ∉ fs.dirs) :
    scanStates fs jd [s] = Except.ok [] := by
  simp only [scanStates, if_neg h]

/-- Scanning a concatenation of state lists concatenates the results,
propagating the first error. -/
theorem scanStates_append (fs : SimFS) (jd : String) (l1 l2 : List String) :
    scanStates fs jd (l1 ++ l2) =
      match scanStates fs jd l1 with
      | Except.error msg => Except.error msg
      | Except.ok x =>
        match scanStates fs jd l2 with
        | Except.error msg => Except.error msg
        | Except.ok y => Except.ok (x ++ y) := by
  induction l1 with
  | nil =>
    simp only [List.nil_append, scanStates]
    cases scanStates fs jd l2 <;> rfl
  | cons s rest ih =>
    simp only [List.cons_append, scanStates]
    by_cases h : (jd, s) ∈ fs.dirs
    · rw [if_pos h, if_pos h]
      cases readEntries fs jd s (readDir fs jd s) with
      | error err => rfl
      | ok l =>
        rw [List.append_eq, ih]
        cases scanStates fs jd rest <;> cases scanStates fs jd l2 <;> simp
    · rw [if_neg h, if_neg h]
      exact ih

/-- A successful multi-partition scan means every listed `.json` file of
every existing scanned partition parses. -/
theorem scanStates_ok_parses (fs : SimFS) (jd : String) (states : List String)
    (l : List JournalEntry) (h : scanStates fs jd states = Except.ok l) :
    ∀ s ∈ states, (jd, s) ∈ fs.dirs → ∀ name ∈ readDir fs jd s, hasJsonExt name = true →
      ∃ e, readEntry fs { journalDir := jd, stateDir := s, fileName := name } = Except.ok e := by
  induction states generalizing l with
  | nil =>
    intro s hs
    simp at hs
  | cons s0 rest ih =>
    intro s hs hdir name hname hext
    by_cases h0 : (jd, s0) ∈ fs.dirs
    · simp only [scanStates, if_pos h0] at h
      cases hre : readEntries fs jd s0 (readDir fs jd s0) with
      | error err =>
        rw [hre] at h
        simp at h
      | ok l0 =>
        rw [hre] at h
        cases hsc : scanStates fs jd rest with
        | error err =>
          rw [hsc] at h
          simp at h
        | ok lr =>
          rcases List.mem_cons.mp hs with rfl | hs2
          · exact readEntries_ok_parses fs jd s (readDir fs jd s) l0 hre name hname hext
          · exact ih lr hsc s hs2 hdir name hname hext
    · simp only [scanStates, if_neg h0] at h
      rcases List.mem_cons.mp hs with rfl | hs2
      · exact absurd hdir h0
      · exact ih l h s hs2 hdir name hname hext

/-! ## Lifecycle characterizations -/

/-- `FailEntry` on a non-empty step list with a working filesystem:
mark the last step, save at the current partition, move to `failed`. -/
theorem FailEntry_ok (fs : SimFS) (jd : String) (e : JournalEntry) (errText : String) (now : Nat)
    (hsteps : e.steps ≠ [])
    (hd1 : (jd, e.state) ∈ fs.dirs)
    (hd2 : (jd, EntryStateFailed) ∈ fs.dirs)
    (hne : entryPath jd e.state e.id ≠ entryPath jd EntryStateFailed e.id) :
    FailEntry fs jd e errText now = ({ fs with files := delFile (setFile (setFile fs.files (entryPath jd e.state e.id) (marshalEntry { e with steps := failLastStep errText now e.steps })) (entryPath jd EntryStateFailed e.id) (marshalEntry { e with state := EntryStateFailed, steps := failLastStep errText now e.steps })) (entryPath jd e.state e.id) }, { e with state := EntryStateFailed, steps := failLastStep errText now e.steps }, none) := by
  have hlen : ¬ e.steps.length = 0 := by
    simpa [List.length_eq_zero] using hsteps
  have hsv := saveEntry_mem fs jd { e with steps := failLastStep errText now e.steps } hd1
  have hmv := MoveEntry_ok { fs with files := setFile fs.files (entryPath jd e.state e.id) (marshalEntry { e with steps := failLastStep errText now e.steps }) } jd { e with steps := failLastStep errText now e.steps } EntryStateFailed (marshalEntry { e with steps := failLastStep errText now e.steps }) hd2 hne (getFile_setFile_same _ _ _)
  simp only [FailEntry, if_neg hlen, UpdateEntry, hsv, hmv]

theorem CompleteEntry_state (fs : SimFS) (jd : String) (e : JournalEntry) :
    (CompleteEntry fs jd e).2.1.state = e.state ∨
    (CompleteEntry fs jd e).2.1.state = EntryStateCompleted := by
  unfold CompleteEntry
  rcases hsv : UpdateEntry fs jd e with ⟨fs2, err⟩
  cases err with
  | none =>
    right
    simp [hsv, MoveEntry_entry]
  | some m =>
    left
    simp [hsv]

theorem FailEntry_state (fs : SimFS) (jd : String) (e : JournalEntry)
    (et : String) (now : Nat) :
    (FailEntry fs jd e et now).2.1.state = e.state ∨
    (FailEntry fs jd e et now).2.1.state = EntryStateFailed := by
  unfold FailEntry
  by_cases h0 : e.steps.length = 0
  · left
    simp [h0]
  · rw [if_neg h0]
    rcases hsv : UpdateEntry fs jd { e with steps := failLastStep et now e.steps } with ⟨fs2, err⟩
    cases err with
    | none =>
      right
      simp [hsv, MoveEntry_entry]
    | some m =>
      left
      simp [hsv]

/-! ## Claims -/

/-- C1: for every entry and target state, `MoveEntry` computes the old
file path from the entry's state before mutation, sets the entry's state
to the new state, writes the entry file under the new partition, and only
then removes the old file; it returns an IOError if either the write or
the removal fails, and after a write failure the in-memory entry's state
has already been changed to the new state while the disk is untouched
(the in-memory object no longer matches disk). -/
theorem C1_moveEntry_ordering_and_errors (fs : SimFS) (jd : String)
    (e : JournalEntry) (ns : String) :
    (MoveEntry fs jd e ns).2.1 = { e with state := ns } ∧
    ((jd, ns) ∉ fs.dirs →
      (MoveEntry fs jd e ns).1 = fs ∧
      (MoveEntry fs jd e ns).2.2 = some ("error writing entry: " ++ "no such file or directory")) ∧
    ((jd, ns) ∈ fs.dirs → ns ≠ e.state →
      getFile (MoveEntry fs jd e ns).1.files (entryPath jd ns e.id) = some (marshalEntry { e with state := ns }) ∧
      (getFile fs.files (entryPath jd e.state e.id) = none →
        (MoveEntry fs jd e ns).2.2 = some ("error removing old entry: " ++ "no such file or directory")) ∧
      (∀ d, getFile fs.files (entryPath jd e.state e.id) = some d →
        (MoveEntry fs jd e ns).2.2 = none ∧
        getFile (MoveEntry fs jd e ns).1.files (entryPath jd e.state e.id) = none)) := by
  refine ⟨MoveEntry_entry fs jd e ns, fun hnw => ?_, fun hw hns => ?_⟩
  · rw [MoveEntry_write_fail fs jd e ns hnw]
    exact ⟨rfl, rfl⟩
  · have hne : entryPath jd e.state e.id ≠ entryPath jd ns e.id := by
      intro hcon
      exact hns (by simpa [entryPath] using (congrArg EntryPath.stateDir hcon).symm)
    refine ⟨?_, fun hold => ?_, fun d hold => ?_⟩
    · cases hold : getFile fs.files (entryPath jd e.state e.id) with
      | none =>
        rw [MoveEntry_remove_fail fs jd e ns hw hne hold]
        exact getFile_setFile_same _ _ _
      | some d =>
        rw [MoveEntry_ok fs jd e ns d hw hne hold]
        rw [getFile_delFile_ne _ _ _ (Ne.symm hne)]
        exact getFile_setFile_same _ _ _
    · rw [MoveEntry_remove_fail fs jd e ns hw hne hold]
    · rw [MoveEntry_ok fs jd e ns d hw hne hold]
      exact ⟨rfl, getFile_delFile_same _ _⟩

/-- C1 witness: a concrete successful move out of `current` into
`completed`, plus the in-memory mutation, evaluated on a two-step entry. -/
theorem C1_moveEntry_witness :
    (MoveEntry fsTwoSteps "j" eTwoSteps EntryStateCompleted).2.1 = { eTwoSteps with state := EntryStateCompleted } ∧
    (MoveEntry fsTwoSteps "j" eTwoSteps EntryStateCompleted).2.2 = none ∧
    getFile (MoveEntry fsTwoSteps "j" eTwoSteps EntryStateCompleted).1.files (entryPath "j" EntryStateCurrent "add-7") = none := by
  have h := C1_moveEntry_ordering_and_errors fsTwoSteps "j" eTwoSteps EntryStateCompleted
  have hs := (h.2.2 (by decide) (by decide)).2.2 (marshalEntry eTwoSteps) rfl
  exact ⟨h.1, hs.1, hs.2⟩

/-- C2: for every entry whose step list is empty, `FailEntry` returns the
StateError "no steps in entry" and changes nothing: the filesystem is
untouched (the entry is not moved out of its partition) and the in-memory
entry is unmodified. -/
theorem C2_failEntry_no_steps (fs : SimFS) (jd : String) (e : JournalEntry)
    (errText : String) (now : Nat) (h : e.steps = []) :
    FailEntry fs jd e errText now = (fs, e, some "no steps in entry") := by
  simp [FailEntry, h]

/-- C2 witness: a freshly created entry (zero steps) on a stored journal. -/
theorem C2_failEntry_no_steps_witness :
    eNoSteps.steps = [] ∧
    FailEntry (fsW []) "j" eNoSteps "boom" 5 = (fsW [], eNoSteps, some "no steps in entry") :=
  ⟨rfl, C2_failEntry_no_steps (fsW []) "j" eNoSteps "boom" 5 rfl⟩

/-- C3: for every entry with at least one step (in `current`, with a
working filesystem), `FailEntry` marks exactly the last step failed with
the supplied error text and end time, leaves every earlier step
unchanged, persists the entry, and moves it to the `failed` partition. -/
theorem C3_failEntry_marks_last_and_moves (fs : SimFS) (jd : String) (e : JournalEntry)
    (errText : String) (now : Nat)
    (hsteps : e.steps ≠ [])
    (hcur : e.state = EntryStateCurrent)
    (hd1 : (jd, EntryStateCurrent) ∈ fs.dirs)
    (hd2 : (jd, EntryStateFailed) ∈ fs.dirs) :
    (FailEntry fs jd e errText now).2.2 = none ∧
    (FailEntry fs jd e errText now).2.1 = { e with state := EntryStateFailed, steps := failLastStep errText now e.steps } ∧
    (FailEntry fs jd e errText now).2.1.steps.get? (e.steps.length - 1) = (e.steps.get? (e.steps.length - 1)).map (failStepMut errText now) ∧
    (∀ i, i + 1 < e.steps.length → (FailEntry fs jd e errText now).2.1.steps.get? i = e.steps.get? i) ∧
    getFile (FailEntry fs jd e errText now).1.files (entryPath jd EntryStateFailed e.id) = some (marshalEntry { e with state := EntryStateFailed, steps := failLastStep errText now e.steps }) ∧
    getFile (FailEntry fs jd e errText now).1.files (entryPath jd EntryStateCurrent e.id) = none := by
  have hd1' : (jd, e.state) ∈ fs.dirs := by
    rw [hcur]
    exact hd1
  have hne : entryPath jd e.state e.id ≠ entryPath jd EntryStateFailed e.id := by
    intro hcon
    have hst : EntryStateCurrent = EntryStateFailed := by
      have hpr := congrArg EntryPath.stateDir hcon
      rw [hcur] at hpr
      exact hpr
    exact absurd hst (by decide)
  have hchar := FailEntry_ok fs jd e errText now hsteps hd1' hd2 hne
  rw [hchar]
  refine ⟨rfl, rfl, ?_, fun i hi => ?_, ?_, ?_⟩
  · exact failLastStep_get?_last errText now e.steps hsteps
  · exact failLastStep_get?_lt errText now e.steps i hi
  · rw [getFile_delFile_ne _ _ _ (Ne.symm hne)]
    exact getFile_setFile_same _ _ _
  · rw [← hcur]
    exact getFile_delFile_same _ _

/-- C3 witness: failing a two-step entry marks only the second step. -/
theorem C3_failEntry_witness :
    (FailEntry fsTwoSteps "j" eTwoSteps "disk full" 9).2.2 = none ∧
    (FailEntry fsTwoSteps "j" eTwoSteps "disk full" 9).2.1.steps.get? (eTwoSteps.steps.length - 1) = (eTwoSteps.steps.get? (eTwoSteps.steps.length - 1)).map (failStepMut "disk full" 9) ∧
    (∀ i, i + 1 < eTwoSteps.steps.length → (FailEntry fsTwoSteps "j" eTwoSteps "disk full" 9).2.1.steps.get? i = eTwoSteps.steps.get? i) := by
  have h := C3_failEntry_marks_last_and_moves fsTwoSteps "j" eTwoSteps "disk full" 9 (by decide) rfl (by decide) (by decide)
  exact ⟨h.1, h.2.2.1, h.2.2.2.1⟩

/-- C4: `CreateEntry` returns an entry in state `current` with the given
operation, source and target, an empty step list and id
`operation ++ "-" ++ nanosecondTimestamp`, and the entry is persisted
under the `current` partition before returning. -/
theorem C4_createEntry (fs : SimFS) (jd op src tgt : String) (idN tsN : Nat)
    (hd : (jd, EntryStateCurrent) ∈ fs.dirs) :
    (CreateEntry fs jd op src tgt idN tsN).2 = Except.ok (freshEntry op src tgt idN tsN) ∧
    (freshEntry op src tgt idN tsN).state = EntryStateCurrent ∧
    (freshEntry op src tgt idN tsN).operation = op ∧
    (freshEntry op src tgt idN tsN).source = src ∧
    (freshEntry op src tgt idN tsN).target = tgt ∧
    (freshEntry op src tgt idN tsN).steps = [] ∧
    (freshEntry op src tgt idN tsN).id = op ++ "-" ++ toString idN ∧
    getFile (CreateEntry fs jd op src tgt idN tsN).1.files (entryPath jd EntryStateCurrent (freshEntry op src tgt idN tsN).id) = some (marshalEntry (freshEntry op src tgt idN tsN)) := by
  have hc := CreateEntry_mem fs jd op src tgt idN tsN hd
  rw [hc]
  exact ⟨rfl, rfl, rfl, rfl, rfl, rfl, rfl, getFile_setFile_same _ _ _⟩

/-- C4 witness: the scenario `CreateEntry("add", "a/b", "c/d")`. -/
theorem C4_createEntry_witness :
    (CreateEntry (fsW []) "j" "add" "a/b" "c/d" 7 8).2 = Except.ok (freshEntry "add" "a/b" "c/d" 7 8) ∧
    (freshEntry "add" "a/b" "c/d" 7 8).state = EntryStateCurrent ∧
    (freshEntry "add" "a/b" "c/d" 7 8).id = "add" ++ "-" ++ toString 7 := by
  have h := C4_createEntry (fsW []) "j" "add" "a/b" "c/d" 7 8 (by decide)
  exact ⟨h.1, h.2.1, h.2.2.2.2.2.2.1⟩

/-- C5: marshalling then unmarshalling an entry (with its nested steps)
is lossless for every field, and consequently `CreateEntry` followed
immediately by `GetEntry` of the returned id yields an entry equal in all
fields to the one returned. -/
theorem C5_roundtrip_create_get (e : JournalEntry) (fs : SimFS) (jd op src tgt : String)
    (idN tsN : Nat) (hd : (jd, EntryStateCurrent) ∈ fs.dirs) :
    unmarshalEntry (marshalEntry e) = some e ∧
    (∀ e2, (CreateEntry fs jd op src tgt idN tsN).2 = Except.ok e2 →
      GetEntry (CreateEntry fs jd op src tgt idN tsN).1 jd e2.id = Except.ok e2) := by
  refine ⟨unmarshalEntry_marshalEntry e, fun e2 h2 => ?_⟩
  have hc := CreateEntry_mem fs jd op src tgt idN tsN hd
  rw [hc] at h2 ⊢
  have h3 : Except.ok (freshEntry op src tgt idN tsN) = Except.ok e2 := h2
  injection h3 with h4
  rw [← h4]
  have hstat : statOk { fs with files := setFile fs.files (entryPath jd "current" (freshEntry op src tgt idN tsN).id) (marshalEntry (freshEntry op src tgt idN tsN)) } (entryPath jd EntryStateCurrent (freshEntry op src tgt idN tsN).id) = true := by
    simp [statOk, EntryStateCurrent, getFile_setFile_same]
  rw [GetEntry_current_hit _ _ _ hstat]
  exact readEntry_marshal _ _ _ (getFile_setFile_same _ _ _)

/-- C5 witness: the round trip on a two-step entry and the concrete
create-then-get scenario. -/
theorem C5_roundtrip_witness :
    unmarshalEntry (marshalEntry eTwoSteps) = some eTwoSteps ∧
    GetEntry (CreateEntry (fsW []) "j" "add" "a/b" "c/d" 7 8).1 "j" (freshEntry "add" "a/b" "c/d" 7 8).id = Except.ok (freshEntry "add" "a/b" "c/d" 7 8) := by
  have h := C5_roundtrip_create_get eTwoSteps (fsW []) "j" "add" "a/b" "c/d" 7 8 (by decide)
  exact ⟨h.1, h.2 (freshEntry "add" "a/b" "c/d" 7 8) rfl⟩

/-- C6 counterexample: the claim "only current → completed and
current → failed transitions are possible through the journal's
operations" is false on the code: `CompleteEntry` invoked on an entry
whose state is `failed` succeeds and sets the state to `completed`, a
reverse transition out of a terminal state. -/
theorem C6_counterexample :
    eDoneFailed.state = EntryStateFailed ∧
    (CompleteEntry fsDoneFailed "j" eDoneFailed).2.2 = none ∧
    (CompleteEntry fsDoneFailed "j" eDoneFailed).2.1.state = EntryStateCompleted := by
  refine ⟨rfl, ?_, rfl⟩
  rfl

/-- C6 amended: moving (`MoveEntry`, as called by `CompleteEntry` and
`FailEntry`) is the only journal operation that changes the state field —
`CreateEntry` always builds state `current` and the step helpers preserve
the state — and `MoveEntry` unconditionally sets the state to the
requested target (`completed` for `CompleteEntry`, `failed` for
`FailEntry`), so from `current` only `current → completed` and
`current → failed` arise, but nothing guards the previous state and a
reverse or skipping transition occurs when the helpers run on a
non-current entry. -/
theorem C6_amended_state_transitions (fs : SimFS) (jd : String) (e : JournalEntry)
    (ns ty de so ta dt et op src tgt : String) (now idN tsN : Nat) (i : Nat) :
    (MoveEntry fs jd e ns).2.1.state = ns ∧
    ((CompleteEntry fs jd e).2.1.state = e.state ∨ (CompleteEntry fs jd e).2.1.state = EntryStateCompleted) ∧
    ((FailEntry fs jd e et now).2.1.state = e.state ∨ (FailEntry fs jd e et now).2.1.state = EntryStateFailed) ∧
    (freshEntry op src tgt idN tsN).state = EntryStateCurrent ∧
    (AddStep fs jd e ty de so ta now).2.1.state = e.state ∧
    (StartStep fs jd e i).2.1.state = e.state ∧
    (CompleteStep fs jd e i dt now).2.1.state = e.state ∧
    (FailStep fs jd e i et now).2.1.state = e.state := by
  refine ⟨?_, CompleteEntry_state fs jd e, FailEntry_state fs jd e et now, rfl, ?_, rfl, rfl, rfl⟩
  · rw [MoveEntry_entry]
  · rw [AddStep_entry]

/-- C7 counterexample: the claim "once a step reaches completed or failed
its status never changes again, under any sequence of helper calls" is
false on the code: `StartStep` applied to a step whose status is
`completed` sets it back to `running`. -/
theorem C7_counterexample :
    (eTermStep.steps.get? 0).map Step.status = some StepStatusCompleted ∧
    ((StartStep fsTermStep "j" eTermStep 0).2.1.steps.get? 0).map Step.status = some StepStatusRunning := by
  exact ⟨rfl, rfl⟩

/-- C7 amended: each step lifecycle helper sets the status of its step
unconditionally — `StartStep` to `running`, `CompleteStep` to
`completed` (with details and end time), `FailStep` to `failed` (with
error text and end time) — regardless of the previous status.  Called in
the intended order this advances `pending → running → {completed|failed}`,
but no guard makes a terminal status final: an out-of-order call changes
it again. -/
theorem C7_amended_step_status (fs : SimFS) (jd : String) (e : JournalEntry)
    (i : Nat) (dt et : String) (now : Nat) :
    (StartStep fs jd e i).2.1.steps.get? i = (e.steps.get? i).map (fun s => { s with status := StepStatusRunning }) ∧
    (CompleteStep fs jd e i dt now).2.1.steps.get? i = (e.steps.get? i).map (fun s => { s with status := StepStatusCompleted, details := dt, end_time := now }) ∧
    (FailStep fs jd e i et now).2.1.steps.get? i = (e.steps.get? i).map (fun s => { s with status := StepStatusFailed, error := et, end_time := now }) := by
  refine ⟨?_, ?_, ?_⟩
  · rw [StartStep_entry]
    exact modifyNth_get?_same _ _ _
  · rw [CompleteStep_entry]
    exact modifyNth_get?_same _ _ _
  · rw [FailStep_entry]
    exact modifyNth_get?_same _ _ _

/-- C8: `ListEntries` with an empty filter aggregates the three
partitions in order and with a non-empty filter reads only the requested
partition; an unreadable or invalid `.json` file in a scanned existing
partition fails the whole call with an error (no partial result); and
listing `failed` on an empty journal (no directories yet) yields the
empty sequence, not an error. -/
theorem C8_listEntries_behavior (fs : SimFS) (jd state : String) :
    ListEntries { dirs := [], files := [] } jd EntryStateFailed = Except.ok [] ∧
    (∀ l1 l2 l3, ListEntries fs jd EntryStateCurrent = Except.ok l1 →
      ListEntries fs jd EntryStateCompleted = Except.ok l2 →
      ListEntries fs jd EntryStateFailed = Except.ok l3 →
      ListEntries fs jd "" = Except.ok (l1 ++ l2 ++ l3)) ∧
    (∀ s l, s ≠ "" → ListEntries fs jd s = Except.ok l →
      ∀ x ∈ l, ∃ name, name ∈ readDir fs jd s ∧ hasJsonExt name = true ∧
        readEntry fs { journalDir := jd, stateDir := s, fileName := name } = Except.ok x) ∧
    (∀ s name, s ∈ statesFor state → (jd, s) ∈ fs.dirs → name ∈ readDir fs jd s →
      hasJsonExt name = true →
      (∀ e0, readEntry fs { journalDir := jd, stateDir := s, fileName := name } ≠ Except.ok e0) →
      ∃ msg, ListEntries fs jd state = Except.error msg) := by
  refine ⟨?_, fun l1 l2 l3 h1 h2 h3 => ?_, fun s l hs hl x hx => ?_, fun s name hsf hdir hnm hext hbad => ?_⟩
  · simp [ListEntries, statesFor, scanStates, EntryStateFailed]
  · have e1 : scanStates fs jd [EntryStateCurrent] = Except.ok l1 := by
      simpa [ListEntries, statesFor, EntryStateCurrent] using h1
    have e2 : scanStates fs jd [EntryStateCompleted] = Except.ok l2 := by
      simpa [ListEntries, statesFor, EntryStateCompleted] using h2
    have e3 : scanStates fs jd [EntryStateFailed] = Except.ok l3 := by
      simpa [ListEntries, statesFor, EntryStateFailed] using h3
    have hsplit : ListEntries fs jd "" = scanStates fs jd ([EntryStateCurrent] ++ ([EntryStateCompleted] ++ [EntryStateFailed])) := by
      simp [ListEntries, statesFor]
    rw [hsplit, scanStates_append, e1, scanStates_append, e2, e3]
    simp
  · have hl' : scanStates fs jd [s] = Except.ok l := by
      simpa [ListEntries, statesFor, if_neg hs] using hl
    by_cases hdir : (jd, s) ∈ fs.dirs
    · rw [scanStates_singleton_mem fs jd s hdir] at hl'
      exact readEntries_ok_mem fs jd s (readDir fs jd s) l hl' x hx
    · rw [scanStates_singleton_not fs jd s hdir] at hl'
      injection hl' with hl0
      rw [← hl0] at hx
      simp at hx
  · cases hres : ListEntries fs jd state with
    | error msg => exact ⟨msg, rfl⟩
    | ok l =>
      have hpar := scanStates_ok_parses fs jd (statesFor state) l hres s hsf hdir name hnm hext
      obtain ⟨e0, he0⟩ := hpar
      exact absurd he0 (hbad e0)

/-- C8 witness: the empty journal returns an empty sequence, and a
partition holding an invalid JSON file makes the whole call fail. -/
theorem C8_listEntries_witness :
    ListEntries { dirs := [], files := [] } "j" EntryStateFailed = Except.ok [] ∧
    (∃ msg, ListEntries fsBad "j" EntryStateCurrent = Except.error msg) := by
  have h := C8_listEntries_behavior fsBad "j" EntryStateCurrent
  refine ⟨h.1, ?_⟩
  refine h.2.2.2 EntryStateCurrent "garbage.json" (by decide) (by decide) (by decide) (by decide) ?_
  intro e0 hcon
  exact Except.noConfusion hcon

/-- C9 counterexample: with the same id duplicated in `current` and
`completed` (the window left by an interrupted `MoveEntry`), `GetEntry`
returns the copy in `current` — the least terminal state, not the most —
and `ListEntries` returns both copies without de-duplicating. -/
theorem C9_counterexample :
    eDupCur.id = eDupComp.id ∧
    eDupCur.state = EntryStateCurrent ∧
    eDupComp.state = EntryStateCompleted ∧
    GetEntry fsDup "j" "x" = Except.ok eDupCur ∧
    ListEntries fsDup "j" "" = Except.ok [eDupCur, eDupComp] := by
  refine ⟨rfl, rfl, rfl, ?_, ?_⟩
  · rfl
  · rfl

/-- C9 amended: readers do not de-duplicate and do not prefer the most
terminal state: `GetEntry` searches `current`, `completed`, `failed` in
that order and returns the first copy whose file exists (so it prefers
the least terminal state), and `ListEntries` with an empty filter returns
the concatenation of all three partition listings, duplicates included. -/
theorem C9_amended_reader_order (fs : SimFS) (jd id : String) :
    (statOk fs (entryPath jd EntryStateCurrent id) = true →
      GetEntry fs jd id = readEntry fs (entryPath jd EntryStateCurrent id)) ∧
    (statOk fs (entryPath jd EntryStateCurrent id) = false →
      statOk fs (entryPath jd EntryStateCompleted id) = true →
      GetEntry fs jd id = readEntry fs (entryPath jd EntryStateCompleted id)) ∧
    (statOk fs (entryPath jd EntryStateCurrent id) = false →
      statOk fs (entryPath jd EntryStateCompleted id) = false →
      statOk fs (entryPath jd EntryStateFailed id) = true →
      GetEntry fs jd id = readEntry fs (entryPath jd EntryStateFailed id)) ∧
    (statOk fs (entryPath jd EntryStateCurrent id) = false →
      statOk fs (entryPath jd EntryStateCompleted id) = false →
      statOk fs (entryPath jd EntryStateFailed id) = false →
      GetEntry fs jd id = Except.error ("entry not found: " ++ id)) ∧
    (∀ l1 l2 l3, ListEntries fs jd EntryStateCurrent = Except.ok l1 →
      ListEntries fs jd EntryStateCompleted = Except.ok l2 →
      ListEntries fs jd EntryStateFailed = Except.ok l3 →
      ListEntries fs jd "" = Except.ok (l1 ++ l2 ++ l3)) := by
  refine ⟨GetEntry_current_hit fs jd id, GetEntry_completed_hit fs jd id,
    GetEntry_failed_hit fs jd id, GetEntry_miss fs jd id, fun l1 l2 l3 h1 h2 h3 => ?_⟩
  have e1 : scanStates fs jd [EntryStateCurrent] = Except.ok l1 := by
    simpa [ListEntries, statesFor, EntryStateCurrent] using h1
  have e2 : scanStates fs jd [EntryStateCompleted] = Except.ok l2 := by
    simpa [ListEntries, statesFor, EntryStateCompleted] using h2
  have e3 : scanStates fs jd [EntryStateFailed] = Except.ok l3 := by
    simpa [ListEntries, statesFor, EntryStateFailed] using h3
  have hsplit : ListEntries fs jd "" = scanStates fs jd ([EntryStateCurrent] ++ ([EntryStateCompleted] ++ [EntryStateFailed])) := by
    simp [ListEntries, statesFor]
  rw [hsplit, scanStates_append, e1, scanStates_append, e2, e3]
  simp

/-- C9 amended witness: on the duplicated filesystem, `GetEntry` resolves
through the `current` partition. -/
theorem C9_amended_reader_order_witness :
    GetEntry fsDup "j" "x" = readEntry fsDup (entryPath "j" EntryStateCurrent "x") ∧
    ListEntries fsDup "j" "" = Except.ok ([eDupCur] ++ [eDupComp] ++ []) := by
  have h := C9_amended_reader_order fsDup "j" "x"
  exact ⟨h.1 (by decide), h.2.2.2.2 [eDupCur] [eDupComp] [] rfl rfl rfl⟩

/-- C10: `AddStep` appends the fresh step with status `pending` and
`start_time` set to the creation instant (`end_time` zero), and
`StartStep` changes only the status of its step to `running`: every other
field of that step, every other step, and every non-step field of the
entry are unchanged — in particular no timestamp is set. -/
theorem C10_addStep_startStep_frame (fs : SimFS) (jd : String) (e : JournalEntry)
    (ty de so ta : String) (now : Nat) (i : Nat) :
    (AddStep fs jd e ty de so ta now).2.1.steps = e.steps ++ [{ type := ty, status := StepStatusPending, error := "", description := de, source := so, target := ta, details := "", start_time := now, end_time := 0 }] ∧
    (StartStep fs jd e i).2.1.steps.get? i = (e.steps.get? i).map (fun s => { s with status := StepStatusRunning }) ∧
    (∀ j, j ≠ i → (StartStep fs jd e i).2.1.steps.get? j = e.steps.get? j) ∧
    (StartStep fs jd e i).2.1.steps.length = e.steps.length ∧
    (StartStep fs jd e i).2.1.id = e.id ∧
    (StartStep fs jd e i).2.1.timestamp = e.timestamp ∧
    (StartStep fs jd e i).2.1.operation = e.operation ∧
    (StartStep fs jd e i).2.1.source = e.source ∧
    (StartStep fs jd e i).2.1.target = e.target ∧
    (StartStep fs jd e i).2.1.state = e.state ∧
    (StartStep fs jd e i).2.1.checksum = e.checksum := by
  refine ⟨?_, ?_, fun j hj => ?_, ?_, rfl, rfl, rfl, rfl, rfl, rfl, rfl⟩
  · rw [AddStep_entry]
  · rw [StartStep_entry]
    exact modifyNth_get?_same _ _ _
  · rw [StartStep_entry]
    exact modifyNth_get?_ne _ _ _ _ hj
  · rw [StartStep_entry]
    exact modifyNth_length _ _ _

/-- C10 witness: starting the second step of a two-step entry leaves the
first step and the entry untouched. -/
theorem C10_addStep_startStep_frame_witness :
    (AddStep (fsW []) "j" eNoSteps "verify" "check" "a/b" "c/d" 4).2.1.steps = eNoSteps.steps ++ [{ type := "verify", status := StepStatusPending, error := "", description := "check", source := "a/b", target := "c/d", details := "", start_time := 4, end_time := 0 }] ∧
    (StartStep fsTwoSteps "j" eTwoSteps 1).2.1.steps.get? 0 = eTwoSteps.steps.get? 0 := by
  refine ⟨(C10_addStep_startStep_frame (fsW []) "j" eNoSteps "verify" "check" "a/b" "c/d" 4 1).1, ?_⟩
  exact (C10_addStep_startStep_frame fsTwoSteps "j" eTwoSteps "verify" "check" "a/b" "c/d" 4 1).2.2.1 0 (by decide)
